import Mathlib

/-!
Verification of the read-marker persistence module
(`src/data/src/history/metadata.rs` of the halloy repository).

The module persists, per (server, conversation-kind) key, a `Metadata`
record holding an optional `ReadMarker` (a `chrono::DateTime<Utc>`
timestamp) and an optional `last_triggers_unread` timestamp.

Shallow embedding notes:

* `chrono::DateTime<Utc>` is embedded as a calendar record
  (year/month/day/hour/minute/second/nanosecond) with the validity
  invariant chrono maintains by construction; chrono's derived ordering
  on valid values is lexicographic in these fields, embedded here via an
  order-preserving injective key.  Nanoseconds may reach 2·10⁹ because
  chrono represents a leap second as `second = 59` with
  `nanosecond ≥ 10⁹`.
* `Display` (`to_rfc3339_opts(SecondsFormat::Millis, true)`) and
  `FromStr` (`DateTime::parse_from_rfc3339` followed by
  `with_timezone(&Utc)`) are embedded as executable functions on
  strings, following chrono's formatting and scanning code.
* The file system is embedded as a map from file names to file
  contents; JSON (de)serialisation of records is an external primitive
  (spec §1) and chrono's serde encoding round-trips timestamps at full
  nanosecond precision, so a well-formed file is modelled as the record
  it decodes to, and corrupt or missing files get their own
  constructors.
-/

namespace Halloy

/-- Gregorian leap-year test (chrono / proleptic Gregorian calendar). -/
def isLeapYear (y : Int) : Bool :=
  (y % 4 == 0 && y % 100 != 0) || y % 400 == 0

/-- Number of days of month `m` (1-12) of year `y`. -/
def daysInMonth (y : Int) (m : Nat) : Nat :=
  match m with
  | 1 => 31
  | 2 => if isLeapYear y then 29 else 28
  | 3 => 31
  | 4 => 30
  | 5 => 31
  | 6 => 30
  | 7 => 31
  | 8 => 31
  | 9 => 30
  | 10 => 31
  | 11 => 30
  | 12 => 31
  | _ => 0

/-- Validity invariant of a chrono `DateTime<Utc>` value: calendar
fields in range (chrono's `NaiveDate` year range is ±262143), and a
nanosecond field below 2·10⁹ (values ≥ 10⁹ encode a leap second). -/
def okDate (year : Int) (month day hour minute second nano : Nat) : Prop :=
  1 ≤ month ∧ month ≤ 12 ∧ 1 ≤ day ∧ day ≤ daysInMonth year month ∧
    hour < 24 ∧ minute < 60 ∧ second < 60 ∧ nano < 2000000000 ∧
    -262144 ≤ year ∧ year ≤ 262143

instance (year : Int) (month day hour minute second nano : Nat) :
    Decidable (okDate year month day hour minute second nano) := by
  unfold okDate
  infer_instance

/-- Embedding of `chrono::DateTime<Utc>`: a valid calendar date-time. -/
structure DateTime where
  year : Int
  month : Nat
  day : Nat
  hour : Nat
  minute : Nat
  second : Nat
  nano : Nat
  ok : okDate year month day hour minute second nano

theorem DateTime.ext_fields {a b : DateTime}
    (h1 : a.year = b.year) (h2 : a.month = b.month) (h3 : a.day = b.day)
    (h4 : a.hour = b.hour) (h5 : a.minute = b.minute)
    (h6 : a.second = b.second) (h7 : a.nano = b.nano) : a = b := by
  cases a
  cases b
  simp only at h1 h2 h3 h4 h5 h6 h7
  subst h1 h2 h3 h4 h5 h6 h7
  rfl

instance : DecidableEq DateTime := fun a b =>
  if h : a.year = b.year ∧ a.month = b.month ∧ a.day = b.day ∧
      a.hour = b.hour ∧ a.minute = b.minute ∧ a.second = b.second ∧
      a.nano = b.nano then
    isTrue (DateTime.ext_fields h.1 h.2.1 h.2.2.1 h.2.2.2.1 h.2.2.2.2.1
      h.2.2.2.2.2.1 h.2.2.2.2.2.2)
  else
    isFalse fun he => h (by subst he; exact ⟨rfl, rfl, rfl, rfl, rfl, rfl, rfl⟩)

/-- Order-preserving injective key: chrono's derived `Ord` on
`DateTime<Utc>` compares the date, then seconds of day, then the
nanosecond field, i.e. the fields lexicographically; since every field
is strictly below its radix, this mixed-radix value realises exactly
that order. -/
def DateTime.tkey (t : DateTime) : Int :=
  (((((t.year * 13 + (t.month : Int)) * 32 + (t.day : Int)) * 24 +
      (t.hour : Int)) * 60 + (t.minute : Int)) * 60 + (t.second : Int)) *
      2000000000 + (t.nano : Int)

theorem DateTime.tkey_inj {a b : DateTime} (h : a.tkey = b.tkey) : a = b := by
  obtain ⟨m1a, m2a, d1a, _, ha, mia, sa, na, y1a, y2a⟩ := a.ok
  obtain ⟨m1b, m2b, d1b, _, hb, mib, sb, nb, y1b, y2b⟩ := b.ok
  have d2a : a.day ≤ 31 := by
    calc a.day ≤ daysInMonth a.year a.month := by assumption
    _ ≤ 31 := by unfold daysInMonth; split <;> first | omega | split <;> omega
  have d2b : b.day ≤ 31 := by
    calc b.day ≤ daysInMonth b.year b.month := by assumption
    _ ≤ 31 := by unfold daysInMonth; split <;> first | omega | split <;> omega
  unfold DateTime.tkey at h
  refine DateTime.ext_fields ?_ ?_ ?_ ?_ ?_ ?_ ?_ <;> omega

/-- The `<=` of chrono's derived `Ord` on `DateTime<Utc>`. -/
def DateTime.le (a b : DateTime) : Prop := a.tkey ≤ b.tkey

/-- The `<` of chrono's derived `Ord` on `DateTime<Utc>`. -/
def DateTime.lt (a b : DateTime) : Prop := a.tkey < b.tkey

instance (a b : DateTime) : Decidable (a.le b) := Int.decLe _ _

instance (a b : DateTime) : Decidable (a.lt b) := Int.decLt _ _

theorem DateTime.dtLe_refl (a : DateTime) : a.le a := Int.le_refl _

theorem DateTime.dtLe_total (a b : DateTime) : a.le b ∨ b.le a :=
  Int.le_total _ _

theorem DateTime.dtLe_antisymm {a b : DateTime} (h1 : a.le b) (h2 : b.le a) :
    a = b :=
  DateTime.tkey_inj (Int.le_antisymm h1 h2)

/-- Truncation of a timestamp to whole milliseconds (what formatting
with `SecondsFormat::Millis` followed by re-parsing produces). -/
def DateTime.truncMillis (t : DateTime) : DateTime where
  year := t.year
  month := t.month
  day := t.day
  hour := t.hour
  minute := t.minute
  second := t.second
  nano := t.nano / 1000000 * 1000000
  ok := by
    obtain ⟨h1, h2, h3, h4, h5, h6, h7, h8, h9, h10⟩ := t.ok
    exact ⟨h1, h2, h3, h4, h5, h6, h7,
      Nat.lt_of_le_of_lt (Nat.div_mul_le_self _ _) h8, h9, h10⟩

/-- The ten decimal digit characters. -/
def digitChar (d : Nat) : Char :=
  match d with
  | 0 => '0'
  | 1 => '1'
  | 2 => '2'
  | 3 => '3'
  | 4 => '4'
  | 5 => '5'
  | 6 => '6'
  | 7 => '7'
  | 8 => '8'
  | _ => '9'

/-- Fixed-width zero-padded decimal rendering, most significant digit
first: Rust's `{:04}` / `{:02}` formatting of a value below `10 ^ w`
(only the last `w` digits of larger values appear). -/
def pad : Nat → Nat → List Char
  | 0, _ => []
  | w + 1, n => digitChar (n / 10 ^ w % 10) :: pad w n

/-- Unpadded decimal rendering: Rust's `u64` `Display`. -/
def decChars (n : Nat) : List Char :=
  if n = 0 then ['0'] else (Nat.digits 10 n).reverse.map digitChar

/-- Rendering of the year by chrono's `Numeric::Year` item: four
zero-padded digits for years 0-9999, otherwise an explicit sign
followed by the decimal digits. -/
def yearChars (y : Int) : List Char :=
  if 0 ≤ y ∧ y < 10000 then pad 4 y.toNat
  else if y < 0 then '-' :: decChars (-y).toNat
  else '+' :: decChars y.toNat

/-- Chrono's `to_rfc3339_opts(SecondsFormat::Millis, true)`: date,
`T`, time with exactly three fractional digits, and a `Z` offset.  The
displayed second is `second + nano / 10⁹` (a leap second shows as 60)
and the fraction is `nano % 10⁹ / 10⁶`. -/
def renderChars (t : DateTime) : List Char :=
  yearChars t.year ++ '-' :: (pad 2 t.month ++ '-' :: (pad 2 t.day ++
    'T' :: (pad 2 t.hour ++ ':' :: (pad 2 t.minute ++
    ':' :: (pad 2 (t.second + t.nano / 1000000000) ++
    '.' :: (pad 3 (t.nano % 1000000000 / 1000000) ++ ['Z']))))))

/-- Embedding of `ReadMarker` (`src/data/src/history/metadata.rs`):
a newtype around `DateTime<Utc>`. -/
structure ReadMarker where
  val : DateTime
deriving DecidableEq

/-- Source `impl fmt::Display for ReadMarker`:
`self.0.to_rfc3339_opts(SecondsFormat::Millis, true)`. -/
def ReadMarker.fmt (r : ReadMarker) : String :=
  String.mk (renderChars r.val)

/-- The `<=` of the derived `Ord` on `ReadMarker`. -/
def ReadMarker.le (a b : ReadMarker) : Prop := a.val.le b.val

/-- The `<` of the derived `Ord` on `ReadMarker`. -/
def ReadMarker.lt (a b : ReadMarker) : Prop := a.val.lt b.val

instance (a b : ReadMarker) : Decidable (a.le b) := by
  unfold ReadMarker.le
  infer_instance

instance (a b : ReadMarker) : Decidable (a.lt b) := by
  unfold ReadMarker.lt
  infer_instance

/-- Rust's `Ord::max` on `ReadMarker`. -/
def ReadMarker.max (a b : ReadMarker) : ReadMarker :=
  if a.le b then b else a

/-- Millisecond truncation lifted to `ReadMarker`. -/
def ReadMarker.truncMillis (r : ReadMarker) : ReadMarker :=
  ⟨r.val.truncMillis⟩

/-- Scanning of one decimal digit (chrono `scan` module). -/
def parseDigit (c : Char) : Option Nat :=
  if '0' ≤ c ∧ c ≤ '9' then some (c.toNat - 48) else none

/-- Scanning of exactly `w` decimal digits into a number (chrono's
`scan::number` with equal minimum and maximum width). -/
def scanNum : Nat → Nat → List Char → Option (Nat × List Char)
  | 0, acc, s => some (acc, s)
  | w + 1, acc, c :: s =>
    match parseDigit c with
    | some d => scanNum w (acc * 10 + d) s
    | none => none
  | _ + 1, _, [] => none

/-- Scanning of one expected literal character. -/
def expectChar (c : Char) : List Char → Option (List Char)
  | x :: xs => if x = c then some xs else none
  | [] => none

/-- Scanning of the RFC 3339 date/time separator: chrono accepts `T`,
`t` or a space. -/
def expectSep : List Char → Option (List Char)
  | c :: s => if c = 'T' ∨ c = 't' ∨ c = ' ' then some s else none
  | [] => none

/-- Helper of `scanFrac`: consume up to `left` more digits, then skip
any further digits; the value read so far is scaled by the unused
width (chrono's `scan::nanosecond`). -/
def scanFracGo : Nat → Nat → List Char → Nat × List Char
  | 0, acc, s => (acc, s.dropWhile Char.isDigit)
  | left + 1, acc, [] => (acc * 10 ^ (left + 1), [])
  | left + 1, acc, c :: cs =>
    match parseDigit c with
    | some d => scanFracGo left (acc * 10 + d) cs
    | none => (acc * 10 ^ (left + 1), c :: cs)

/-- Scanning of a fractional-second field after the dot: at least one
digit; the first nine digits become the nanosecond value, any further
digits are consumed and ignored (chrono's `scan::nanosecond`). -/
def scanFrac : List Char → Option (Nat × List Char)
  | c :: cs =>
    match parseDigit c with
    | some d => some (scanFracGo 8 d cs)
    | none => none
  | [] => none

/-- Scanning of an RFC 3339 offset: `Z`/`z`, or a sign, two hour
digits, a colon and two minute digits, yielding minutes east of UTC
(chrono's `scan::timezone_offset`). -/
def scanOffset : List Char → Option (Int × List Char)
  | [] => none
  | c :: s =>
    if c = 'Z' ∨ c = 'z' then some (0, s)
    else if c = '+' ∨ c = '-' then
      match scanNum 2 0 s with
      | some (hh, s1) =>
        match s1 with
        | ':' :: s2 =>
          match scanNum 2 0 s2 with
          | some (mm, s3) =>
            if mm < 60 then
              some (if c = '-' then -((hh * 60 + mm : Nat) : Int)
                    else ((hh * 60 + mm : Nat) : Int), s3)
            else none
          | none => none
        | _ => none
      | none => none
    else none

/-- The raw fields scanned from an RFC 3339 string, before calendar
validation (chrono's `Parsed`). -/
structure Rfc3339Parts where
  year : Nat
  month : Nat
  day : Nat
  hour : Nat
  minute : Nat
  second : Nat
  nano : Nat
  offsetMinutes : Int

/-- Chrono's `parse_rfc3339` scanning pass: fixed-width numeric
fields, literal separators, an optional fraction introduced by a dot,
an offset, and no trailing input. -/
def parseRfc3339 (s : List Char) : Option Rfc3339Parts := do
  let (y, s) ← scanNum 4 0 s
  let s ← expectChar '-' s
  let (mo, s) ← scanNum 2 0 s
  let s ← expectChar '-' s
  let (d, s) ← scanNum 2 0 s
  let s ← expectSep s
  let (h, s) ← scanNum 2 0 s
  let s ← expectChar ':' s
  let (mi, s) ← scanNum 2 0 s
  let s ← expectChar ':' s
  let (sec, s) ← scanNum 2 0 s
  let (nano, s) ←
    (match s with
     | '.' :: rest => scanFrac rest
     | _ => some (0, s))
  let (off, s) ← scanOffset s
  if s.isEmpty then some ⟨y, mo, d, h, mi, sec, nano, off⟩ else none

/-- Checked construction of a `DateTime` (chrono's
`Parsed::to_datetime` field validation). -/
def mkDateTime? (y : Int) (mo d h mi sec n : Nat) : Option DateTime :=
  if hv : okDate y mo d h mi sec n then
    some ⟨y, mo, d, h, mi, sec, n, hv⟩
  else none

/-- Days since 1970-01-01 of a civil date (Hinnant's
`days_from_civil`, as used by chrono's date arithmetic). -/
def daysFromCivil (y : Int) (m d : Nat) : Int :=
  let y : Int := if m ≤ 2 then y - 1 else y
  let era : Int := Int.fdiv y 400
  let yoe : Nat := (y - era * 400).toNat
  let mp : Nat := (m + 9) % 12
  let doy : Nat := (153 * mp + 2) / 5 + d - 1
  let doe : Nat := yoe * 365 + yoe / 4 - yoe / 100 + doy
  era * 146097 + (doe : Int) - 719468

/-- Civil date of a number of days since 1970-01-01 (Hinnant's
`civil_from_days`). -/
def civilFromDays (z : Int) : Int × Nat × Nat :=
  let z : Int := z + 719468
  let era : Int := Int.fdiv z 146097
  let doe : Nat := (z - era * 146097).toNat
  let yoe : Nat := (doe - doe / 1460 + doe / 36524 - doe / 146096) / 365
  let y : Int := (yoe : Int) + era * 400
  let doy : Nat := doe - (365 * yoe + yoe / 4 - yoe / 100)
  let mp : Nat := (5 * doy + 2) / 153
  let d : Nat := doy - (153 * mp + 2) / 5 + 1
  let m : Nat := if mp < 10 then mp + 3 else mp - 9
  (if m ≤ 2 then y + 1 else y, m, d)

/-- Conversion of a parsed local date-time to UTC by subtracting the
offset (`with_timezone(&Utc)`).  Chrono re-normalises through its
day-count representation; the resulting fields always satisfy the
calendar invariant, re-checked here by `mkDateTime?`. -/
def shiftToUtc (t : DateTime) (offMinutes : Int) : Option DateTime :=
  let total : Int :=
    daysFromCivil t.year t.month t.day * 1440 + (t.hour : Int) * 60 +
      (t.minute : Int) - offMinutes
  let day : Int := Int.fdiv total 1440
  let rem : Nat := (total - day * 1440).toNat
  let c := civilFromDays day
  mkDateTime? c.1 c.2.1 c.2.2 (rem / 60) (rem % 60) t.second t.nano

/-- Chrono's `Parsed::to_datetime` followed by `with_timezone(&Utc)`:
a second of 60 becomes second 59 with the nanosecond raised by 10⁹
(leap second), the fields are validated, the offset must be shorter
than a day, and a non-zero offset is subtracted. -/
def toUtc (p : Rfc3339Parts) : Option DateTime :=
  let sn : Nat × Nat :=
    if p.second = 60 then (59, p.nano + 1000000000) else (p.second, p.nano)
  match mkDateTime? (p.year : Int) p.month p.day p.hour p.minute sn.1 sn.2 with
  | none => none
  | some t =>
    if p.offsetMinutes.natAbs < 1440 then
      if p.offsetMinutes = 0 then some t else shiftToUtc t p.offsetMinutes
    else none

/-- Source `impl FromStr for ReadMarker`:
`DateTime::parse_from_rfc3339(s).map(|dt| dt.with_timezone(&Utc)).map(Self)`;
the chrono parse error is collapsed to `none`. -/
def ReadMarker.from_str (s : String) : Option ReadMarker :=
  ((parseRfc3339 s.data).bind toUtc).map ReadMarker.mk

/-- Modelled from the spec: the external `Message` collaborator
(spec §3, §6).  Only the three facets the engine reads are modelled:
`server_time`, whether the message's source is purely-local/internal
(`matches!(message.target.source(), message::Source::Internal(_))`),
and the unread-indicator predicate `triggers_unread()`. -/
structure Message where
  serverTime : DateTime
  internal : Bool
  triggersUnread : Bool

/-- Source `ReadMarker::latest`: scan the slice from the end for the
first message whose source is not internal and wrap its
`server_time`. -/
def ReadMarker.latest (messages : List Message) : Option ReadMarker :=
  ((messages.reverse.find? (fun m => !m.internal)).map
    (fun m => m.serverTime)).map ReadMarker.mk

/-- Source `latest_triggers_unread`: scan the slice from the end for
the first message with `triggers_unread()` and return its
`server_time`. -/
def latest_triggers_unread (messages : List Message) : Option DateTime :=
  (messages.reverse.find? (fun m => m.triggersUnread)).map
    (fun m => m.serverTime)

/-- Source `Metadata`: the persisted record. -/
structure Metadata where
  read_marker : Option ReadMarker
  last_triggers_unread : Option DateTime

/-- Rust's derived `Metadata::default()`. -/
def Metadata.dflt : Metadata := ⟨none, none⟩

/-- Modelled from the spec: the conversation identity
(`crate::history::Kind`, declared outside `src/`); its variants and
payloads are those matched by the source `path` function, with the
channel and nickname payloads taken at their stable textual
representation (spec §3, §6). -/
inductive Kind where
  | server
  | channel (channel : String)
  | query (nick : String)
  | logs
deriving DecidableEq

/-- Little-endian read of a byte sequence (seahash's `read_int` /
`read_u64`). -/
def readLE : List Nat → Nat
  | [] => 0
  | b :: bs => b + 256 * readLE bs

/-- Modelled from the spec: the external fast non-cryptographic
64-bit hash (the `seahash` crate's `diffuse` function; spec §4.3
treats the hash as an external primitive).  All wrapping 64-bit
arithmetic is explicit modulo `2 ^ 64`. -/
def diffuse (x : Nat) : Nat :=
  let y := x * 0x6eed0e9da4d94a4f % 2 ^ 64
  let z := Nat.xor y (y / 2 ^ 32 / 2 ^ (y / 2 ^ 60))
  z * 0x6eed0e9da4d94a4f % 2 ^ 64

/-- Modelled from the spec: the 32-byte block pass of the `seahash`
buffer hash, folding each of four little-endian words into its own
lane; returns the lanes and the remaining (fewer than 32) bytes. -/
def seahashBlocks :
    Nat → Nat → Nat → Nat → List Nat → Nat × Nat × Nat × Nat × List Nat
  | a, b, c, d, b0 :: b1 :: b2 :: b3 :: b4 :: b5 :: b6 :: b7 ::
      b8 :: b9 :: b10 :: b11 :: b12 :: b13 :: b14 :: b15 ::
      b16 :: b17 :: b18 :: b19 :: b20 :: b21 :: b22 :: b23 ::
      b24 :: b25 :: b26 :: b27 :: b28 :: b29 :: b30 :: b31 :: rest =>
    seahashBlocks
      (diffuse (Nat.xor a (readLE [b0, b1, b2, b3, b4, b5, b6, b7])))
      (diffuse (Nat.xor b (readLE [b8, b9, b10, b11, b12, b13, b14, b15])))
      (diffuse (Nat.xor c (readLE [b16, b17, b18, b19, b20, b21, b22, b23])))
      (diffuse (Nat.xor d (readLE [b24, b25, b26, b27, b28, b29, b30, b31])))
      rest
  | a, b, c, d, rest => (a, b, c, d, rest)

/-- Modelled from the spec: the tail pass of the `seahash` buffer
hash over the final, shorter-than-32-byte chunk. -/
def seahashTail (a b c d : Nat) (bytes : List Nat) : Nat × Nat × Nat × Nat :=
  let n := bytes.length
  if n = 0 then (a, b, c, d)
  else if n ≤ 8 then (diffuse (Nat.xor a (readLE bytes)), b, c, d)
  else if n ≤ 16 then
    (diffuse (Nat.xor a (readLE (bytes.take 8))),
     diffuse (Nat.xor b (readLE (bytes.drop 8))), c, d)
  else if n ≤ 24 then
    (diffuse (Nat.xor a (readLE (bytes.take 8))),
     diffuse (Nat.xor b (readLE ((bytes.drop 8).take 8))),
     diffuse (Nat.xor c (readLE (bytes.drop 16))), d)
  else
    (diffuse (Nat.xor a (readLE (bytes.take 8))),
     diffuse (Nat.xor b (readLE ((bytes.drop 8).take 8))),
     diffuse (Nat.xor c (readLE ((bytes.drop 16).take 8))),
     diffuse (Nat.xor d (readLE (bytes.drop 24))))

/-- Modelled from the spec: `seahash::hash` over a byte buffer, with
the crate's default seeds and `diffuse(a ^ b ^ c ^ d ^ len)`
finalisation.  No claim depends on the hash's internals, only on the
function being applied to equal or differing inputs. -/
def seahash (bytes : List Nat) : Nat :=
  let s := seahashBlocks 0x16f11fe89b0d677c 0xb480a793d8e6c86c
    0x6fe2e5aaf078ebc9 0x14f994a4c5259381 bytes
  let t := seahashTail s.1 s.2.1 s.2.2.1 s.2.2.2.1 s.2.2.2.2
  diffuse (Nat.xor (Nat.xor (Nat.xor t.1 t.2.1) (Nat.xor t.2.2.1 t.2.2.2))
    (bytes.length % 2 ^ 64))

/-- UTF-8 encoding of one scalar value (Rust's `str::as_bytes` view). -/
def utf8EncodeChar (c : Char) : List Nat :=
  let n := c.toNat
  if n < 0x80 then [n]
  else if n < 0x800 then [0xC0 + n / 0x40, 0x80 + n % 0x40]
  else if n < 0x10000 then
    [0xE0 + n / 0x1000, 0x80 + n / 0x40 % 0x40, 0x80 + n % 0x40]
  else
    [0xF0 + n / 0x40000, 0x80 + n / 0x1000 % 0x40, 0x80 + n / 0x40 % 0x40,
     0x80 + n % 0x40]

/-- UTF-8 bytes of a string (`name.as_bytes()`). -/
def utf8Bytes (s : String) : List Nat := s.data.flatMap utf8EncodeChar

/-- The canonical name string built by the source `path` function for
a given (server, conversation-kind) pair; the server identity is its
stable textual representation (spec §6). -/
def metadataName (server : String) : Kind → String
  | Kind.server => server ++ "-metadata"
  | Kind.channel c => server ++ "channel" ++ c ++ "-metadata"
  | Kind.query nick => server ++ "nickname" ++ nick ++ "-metadata"
  | Kind.logs => "log-metadata"

/-- Unpadded decimal rendering as a string (Rust's `u64` `Display`,
as used by `format!("{hashed_name}.json")`). -/
def decimalString (n : Nat) : String := String.mk (decChars n)

/-- Source `path`: the on-disk file name
`format!("{hashed_name}.json")` with
`hashed_name = seahash::hash(name.as_bytes())`.  Every record lives in
the same lazily-resolved base directory (`dir_path`), so the file name
alone decides which file a key touches. -/
def path (server : String) (kind : Kind) : String :=
  decimalString (seahash (utf8Bytes (metadataName server kind))) ++ ".json"

/-- Modelled from the spec: what the engine can find at one on-disk
path.  JSON (de)serialisation is an external primitive (spec §1) and
chrono's serde encoding of timestamps round-trips at full nanosecond
precision, so a well-formed file is modelled as the record it decodes
to; `missing` is a failing `fs::read` and `corrupt` is bytes that do
not decode as a `Metadata` record. -/
inductive FileContent where
  | missing
  | corrupt
  | record (m : Metadata)

/-- The file system under the base directory: contents by file name. -/
def Store : Type := String → FileContent

/-- Whole-file replacement write (`fs::write`). -/
def writeFile (st : Store) (p : String) (c : FileContent) : Store :=
  fun q => if q = p then c else st q

/-- Decoding pass of the source `load`: a failing read gives the
default record, and so does undecodable content
(`serde_json::from_slice(&bytes).unwrap_or_default()`). -/
def decodeFile : FileContent → Metadata
  | FileContent.missing => Metadata.dflt
  | FileContent.corrupt => Metadata.dflt
  | FileContent.record m => m

/-- Source `load`, its infallible core: read the key's file and
decode it with defaulting. -/
def load (st : Store) (server : String) (kind : Kind) : Metadata :=
  decodeFile (st (path server kind))

/-- Source `save`, its store effect: unconditionally overwrite the
key's file with `{ read_marker, last_triggers_unread:
latest_triggers_unread(messages) }`. -/
def save (st : Store) (server : String) (kind : Kind)
    (messages : List Message) (read_marker : Option ReadMarker) : Store :=
  writeFile st (path server kind)
    (FileContent.record ⟨read_marker, latest_triggers_unread messages⟩)

/-- Source `update`, its store effect: load the record; if it already
holds a marker `>=` the candidate, do nothing; otherwise write the
candidate with the loaded `last_triggers_unread` carried over. -/
def update (st : Store) (server : String) (kind : Kind)
    (read_marker : ReadMarker) : Store :=
  let metadata := load st server kind
  match metadata.read_marker with
  | some r => if read_marker.le r then st
    else writeFile st (path server kind)
      (FileContent.record ⟨some read_marker, metadata.last_triggers_unread⟩)
  | none => writeFile st (path server kind)
      (FileContent.record ⟨some read_marker, metadata.last_triggers_unread⟩)

/-- Source `load` with its error channel: only a failing base
directory resolution (`dir_path().await?`) surfaces as an error; all
read and decode failures are already absorbed by `decodeFile`. -/
def loadE (dirOk : Bool) (st : Store) (server : String) (kind : Kind) :
    Except Unit Metadata :=
  if dirOk then Except.ok (load st server kind) else Except.error ()

/-- Source `save` with its error channel: directory resolution is the
only failure mode modelled (serialisation of a well-formed record and
the write itself are external primitives assumed to succeed for a
"successful save"). -/
def saveE (dirOk : Bool) (st : Store) (server : String) (kind : Kind)
    (messages : List Message) (read_marker : Option ReadMarker) :
    Except Unit Store :=
  if dirOk then Except.ok (save st server kind messages read_marker)
  else Except.error ()

/-- Source `update` with its error channel, as for `saveE`. -/
def updateE (dirOk : Bool) (st : Store) (server : String) (kind : Kind)
    (read_marker : ReadMarker) : Except Unit Store :=
  if dirOk then Except.ok (update st server kind read_marker)
  else Except.error ()

/-! Shared sample values used by witnesses and counterexamples. -/

/-- A store with no files at all. -/
def emptyStore : Store := fun _ => FileContent.missing

/-- Sample marker 2024-01-01T00:00:00.000000000Z. -/
def rmA : ReadMarker := ⟨⟨2024, 1, 1, 0, 0, 0, 0, by decide⟩⟩

/-- Sample marker 2024-01-01T00:00:00.000000001Z (one nanosecond,
i.e. a sub-millisecond component). -/
def rmAsub : ReadMarker := ⟨⟨2024, 1, 1, 0, 0, 0, 1, by decide⟩⟩

/-- Sample marker 2024-01-02T03:04:05.000Z. -/
def rmB : ReadMarker := ⟨⟨2024, 1, 2, 3, 4, 5, 0, by decide⟩⟩

/-- Sample marker 2023-12-31T23:00:00.000Z. -/
def rmOld : ReadMarker := ⟨⟨2023, 12, 31, 23, 0, 0, 0, by decide⟩⟩

/-! List scanning helper lemmas. -/

theorem find?_eq_head?_filter {α : Type} (p : α → Bool) (l : List α) :
    l.find? p = (l.filter p).head? := by
  induction l with
  | nil => rfl
  | cons a l ih =>
    cases h : p a
    · rw [List.find?_cons_of_neg _ (by simp [h]),
        List.filter_cons_of_neg (by simp [h]), ih]
    · rw [List.find?_cons_of_pos _ h, List.filter_cons_of_pos h]
      rfl

/-- A backwards `find` over a slice returns the last matching
element. -/
theorem reverse_find?_eq_getLast?_filter {α : Type} (p : α → Bool)
    (l : List α) : l.reverse.find? p = (l.filter p).getLast? := by
  rw [find?_eq_head?_filter, List.filter_reverse, ← List.getLast?_eq_head?_reverse]

/-- C3: `ReadMarker::latest` returns the `server_time` of the last
message of the sequence whose source is not internal, wrapped as a
`ReadMarker`, and `none` when the sequence is empty or every message
is internal (the filtered list then has no last element). -/
theorem c3_latest_is_last_noninternal (messages : List Message) :
    ReadMarker.latest messages =
      ((messages.filter (fun m => !m.internal)).getLast?).map
        (fun m => ReadMarker.mk m.serverTime) := by
  unfold ReadMarker.latest
  rw [reverse_find?_eq_getLast?_filter, Option.map_map]
  rfl

/-- C7: a successful `save` overwrites the key's file with exactly
`{ read_marker, last_triggers_unread: latest_triggers_unread(messages) }`
whatever the store previously held, and `latest_triggers_unread`
returns the `server_time` of the last message with
`triggers_unread() == true` (or nothing if none exists). -/
theorem c7_save_overwrites (st : Store) (server : String) (kind : Kind)
    (messages : List Message) (read_marker : Option ReadMarker) :
    saveE true st server kind messages read_marker =
      Except.ok (writeFile st (path server kind)
        (FileContent.record ⟨read_marker, latest_triggers_unread messages⟩)) ∧
    latest_triggers_unread messages =
      ((messages.filter (fun m => m.triggersUnread)).getLast?).map
        (fun m => m.serverTime) := by
  refine ⟨rfl, ?_⟩
  unfold latest_triggers_unread
  rw [reverse_find?_eq_getLast?_filter]

/-- C5: `load` returns the default record `{None, None}` whenever the
key's file is missing/unreadable or holds undecodable bytes — never
an error from those causes — while a failing base-directory
resolution is the one condition that surfaces as an error. -/
theorem c5_load_swallows_read_failures (st : Store) (server : String)
    (kind : Kind)
    (h : st (path server kind) = FileContent.missing ∨
         st (path server kind) = FileContent.corrupt) :
    loadE true st server kind = Except.ok ⟨none, none⟩ ∧
    loadE false st server kind = Except.error () := by
  refine ⟨?_, rfl⟩
  unfold loadE load
  rcases h with h | h <;> rw [h] <;> rfl

/-- Witness for C5 at a concrete key over an empty store. -/
theorem c5_witness :
    (emptyStore (path "libera" Kind.server) = FileContent.missing ∨
      emptyStore (path "libera" Kind.server) = FileContent.corrupt) ∧
    (loadE true emptyStore "libera" Kind.server = Except.ok ⟨none, none⟩ ∧
     loadE false emptyStore "libera" Kind.server = Except.error ()) :=
  ⟨Or.inl rfl,
   c5_load_swallows_read_failures emptyStore "libera" Kind.server (Or.inl rfl)⟩

/-- C6: when the loaded record already holds a marker `>=` the
candidate, `update` succeeds and performs no write: the store — hence
the file's bytes — is returned unchanged. -/
theorem c6_update_noop_when_not_newer (st : Store) (server : String)
    (kind : Kind) (candidate r : ReadMarker) (md : Metadata)
    (h1 : st (path server kind) = FileContent.record md)
    (h2 : md.read_marker = some r) (h3 : candidate.le r) :
    updateE true st server kind candidate = Except.ok st := by
  unfold updateE update load
  rw [h1]
  show Except.ok
    (match (decodeFile (FileContent.record md)).read_marker with
     | some r => if candidate.le r then st else _
     | none => _) = Except.ok st
  rw [show decodeFile (FileContent.record md) = md from rfl, h2]
  simp only
  rw [if_pos h3]

/-- Witness for C6: a store holding marker 2024-01-02T03:04:05.000Z
left untouched by an update with the older 2023-12-31T23:00:00.000Z. -/
theorem c6_witness :
    rmOld.le rmB ∧
    updateE true (fun _ => FileContent.record ⟨some rmB, none⟩) "libera"
        Kind.server rmOld =
      Except.ok (fun _ => FileContent.record ⟨some rmB, none⟩) :=
  ⟨by decide,
   c6_update_noop_when_not_newer (fun _ => FileContent.record ⟨some rmB, none⟩)
     "libera" Kind.server rmOld rmB ⟨some rmB, none⟩ rfl rfl (by decide)⟩

/-- C9: loading right after a successful `save` for the same key
returns exactly the record the save wrote — the read marker passed in
and the derived `last_triggers_unread` — at full timestamp precision
(the modelled serde encoding of chrono timestamps is lossless). -/
theorem c9_save_then_load (st st' : Store) (server : String) (kind : Kind)
    (messages : List Message) (read_marker : Option ReadMarker)
    (h : saveE true st server kind messages read_marker = Except.ok st') :
    loadE true st' server kind =
      Except.ok ⟨read_marker, latest_triggers_unread messages⟩ := by
  unfold saveE at h
  simp only [if_pos] at h
  cases h
  unfold loadE load save writeFile
  simp only [eq_self_iff_true, if_true]
  rfl

/-- Witness for C9 at a concrete key, message list and marker. -/
theorem c9_witness :
    saveE true emptyStore "libera" Kind.server [] (some rmA) =
      Except.ok (save emptyStore "libera" Kind.server [] (some rmA)) ∧
    loadE true (save emptyStore "libera" Kind.server [] (some rmA)) "libera"
        Kind.server =
      Except.ok ⟨some rmA, latest_triggers_unread []⟩ :=
  ⟨rfl,
   c9_save_then_load emptyStore (save emptyStore "libera" Kind.server []
     (some rmA)) "libera" Kind.server [] (some rmA) rfl⟩

theorem ReadMarker.rmLe_antisymm {a b : ReadMarker} (h1 : a.le b)
    (h2 : b.le a) : a = b := by
  cases a
  cases b
  exact congrArg ReadMarker.mk (DateTime.dtLe_antisymm h1 h2)

theorem ReadMarker.rmLe_total (a b : ReadMarker) : a.le b ∨ b.le a :=
  DateTime.dtLe_total _ _

theorem ReadMarker.rmLe_refl (a : ReadMarker) : a.le a := DateTime.dtLe_refl _

theorem ReadMarker.le_max_left (a b : ReadMarker) : a.le (a.max b) := by
  unfold ReadMarker.max
  by_cases h : a.le b
  · rw [if_pos h]
    exact h
  · rw [if_neg h]
    exact ReadMarker.rmLe_refl a

/-- Effect of one `update` on the persisted marker of its own key:
the stored marker becomes the maximum of the old marker (when one
exists) and the candidate. -/
theorem load_update_marker (st : Store) (server : String) (kind : Kind)
    (c : ReadMarker) :
    (load (update st server kind c) server kind).read_marker =
      some (match (load st server kind).read_marker with
            | none => c
            | some r => ReadMarker.max r c) := by
  simp only [update]
  cases h : (load st server kind).read_marker with
  | none =>
    simp [load, writeFile, decodeFile]
  | some r =>
    simp only
    by_cases hle : c.le r
    · rw [if_pos hle, h]
      unfold ReadMarker.max
      by_cases hrc : r.le c
      · rw [if_pos hrc, ReadMarker.rmLe_antisymm hrc hle]
      · rw [if_neg hrc]
    · rw [if_neg hle]
      simp only [load, writeFile, decodeFile, eq_self_iff_true, if_true]
      unfold ReadMarker.max
      rcases ReadMarker.rmLe_total r c with hrc | hrc
      · rw [if_pos hrc]
      · exact absurd hrc hle

theorem foldl_update_markers (server : String) (kind : Kind)
    (ms : List ReadMarker) :
    ∀ (st : Store) (acc : ReadMarker),
      (load st server kind).read_marker = some acc →
      (load (ms.foldl (fun s x => update s server kind x) st) server
          kind).read_marker = some (ms.foldl ReadMarker.max acc) := by
  induction ms with
  | nil =>
    intro st acc h
    simpa using h
  | cons m ms ih =>
    intro st acc h
    simp only [List.foldl_cons]
    apply ih
    rw [load_update_marker, h]

/-- Pointwise comparison of optional persisted markers: an absent
marker is below everything, a present marker is never replaced by an
absent or smaller one. -/
def markerLE : Option ReadMarker → Option ReadMarker → Prop
  | none, _ => True
  | some _, none => False
  | some a, some b => a.le b

/-- C1: starting from an empty record, a sequence of sequential
`update` calls with markers `m :: ms` on one key leaves the fold of
`Ord::max` over them as the persisted marker, and a single `update`
never lowers an existing persisted marker. -/
theorem c1_sequential_updates_monotone (st : Store) (server : String)
    (kind : Kind) (m : ReadMarker) (ms : List ReadMarker)
    (h0 : (load st server kind).read_marker = none) :
    (load ((m :: ms).foldl (fun s x => update s server kind x) st) server
        kind).read_marker = some (ms.foldl ReadMarker.max m) ∧
    ∀ (st' : Store) (c : ReadMarker),
      markerLE (load st' server kind).read_marker
        (load (update st' server kind c) server kind).read_marker := by
  constructor
  · simp only [List.foldl_cons]
    apply foldl_update_markers
    rw [load_update_marker, h0]
  · intro st' c
    rw [load_update_marker]
    cases h : (load st' server kind).read_marker with
    | none => trivial
    | some r => exact ReadMarker.le_max_left r c

/-- Witness for C1: three sequential updates (middle one older) on a
concrete key starting from an empty store. -/
theorem c1_witness :
    (load emptyStore "libera" Kind.server).read_marker = none ∧
    ((load ((rmA :: [rmOld, rmB]).foldl
          (fun s x => update s "libera" Kind.server x) emptyStore) "libera"
        Kind.server).read_marker =
      some ([rmOld, rmB].foldl ReadMarker.max rmA) ∧
     ∀ (st' : Store) (c : ReadMarker),
       markerLE (load st' "libera" Kind.server).read_marker
         (load (update st' "libera" Kind.server c) "libera"
           Kind.server).read_marker) :=
  ⟨rfl, c1_sequential_updates_monotone emptyStore "libera" Kind.server rmA
    [rmOld, rmB] rfl⟩

theorem digitChar_inj_lt : ∀ a < 10, ∀ b < 10, digitChar a = digitChar b →
    a = b := by decide

theorem map_digitChar_inj : ∀ (l1 l2 : List Nat), (∀ d ∈ l1, d < 10) →
    (∀ d ∈ l2, d < 10) → l1.map digitChar = l2.map digitChar → l1 = l2 := by
  intro l1
  induction l1 with
  | nil =>
    intro l2 _ _ h
    cases l2 with
    | nil => rfl
    | cons b t => simp at h
  | cons a t1 ih =>
    intro l2 h1 h2 h
    cases l2 with
    | nil => simp at h
    | cons b t2 =>
      simp only [List.map_cons, List.cons.injEq] at h
      have ha : a < 10 := h1 a (List.mem_cons_self a t1)
      have hb : b < 10 := h2 b (List.mem_cons_self b t2)
      rw [digitChar_inj_lt a ha b hb h.1,
        ih t2 (fun d hd => h1 d (List.mem_cons_of_mem a hd))
          (fun d hd => h2 d (List.mem_cons_of_mem b hd)) h.2]

theorem decChars_inj {n m : Nat} (h : decChars n = decChars m) : n = m := by
  have digitsOf : ∀ k : Nat, k ≠ 0 → decChars k =
      ((Nat.digits 10 k).reverse.map digitChar) := by
    intro k hk
    unfold decChars
    rw [if_neg hk]
  have len1 : ∀ k : Nat, k ≠ 0 →
      decChars k = ['0'] → False := by
    intro k hk hc
    rw [digitsOf k hk] at hc
    have hlen := congrArg List.length hc
    simp only [List.length_map, List.length_reverse, List.length_singleton]
      at hlen
    obtain ⟨d, hd⟩ := List.length_eq_one.mp hlen
    rw [hd] at hc
    simp only [List.reverse_singleton, List.map_cons, List.map_nil,
      List.cons.injEq] at hc
    have hdlt : d < 10 :=
      Nat.digits_lt_base (by norm_num) (by rw [hd]; exact List.mem_singleton_self d)
    have : d = 0 := digitChar_inj_lt d hdlt 0 (by norm_num) hc.1
    rw [this] at hd
    have := Nat.ofDigits_digits 10 k
    rw [hd] at this
    simp [Nat.ofDigits] at this
    exact hk this.symm
  by_cases hn : n = 0
  · by_cases hm : m = 0
    · rw [hn, hm]
    · subst hn
      exact absurd (id h.symm : decChars m = decChars 0) (len1 m hm)
  · by_cases hm : m = 0
    · subst hm
      exact absurd (h : decChars n = decChars 0) (len1 n hn)
    · rw [digitsOf n hn, digitsOf m hm] at h
      have hrev := map_digitChar_inj (Nat.digits 10 n).reverse
        (Nat.digits 10 m).reverse
        (fun d hd => Nat.digits_lt_base (by norm_num) (List.mem_reverse.mp hd))
        (fun d hd => Nat.digits_lt_base (by norm_num) (List.mem_reverse.mp hd))
        h
      have hdig := List.reverse_injective hrev
      have := congrArg (Nat.ofDigits 10) hdig
      rwa [Nat.ofDigits_digits, Nat.ofDigits_digits] at this

/-- C2 counterexample: the two distinct keys `("a", AggregateLog)` and
`("b", AggregateLog)` resolve to the same file — the aggregate-log
name string ignores the server — and an `update` issued for the first
key is visible through a `load` of the second. -/
theorem c2_counterexample :
    (("a", Kind.logs) : String × Kind) ≠ (("b", Kind.logs) : String × Kind) ∧
    path "a" Kind.logs = path "b" Kind.logs ∧
    (load (update emptyStore "a" Kind.logs rmA) "b" Kind.logs).read_marker =
      some rmA := by
  have hpath : path "b" Kind.logs = path "a" Kind.logs := rfl
  refine ⟨by simp, rfl, ?_⟩
  rw [show update emptyStore "a" Kind.logs rmA =
    writeFile emptyStore (path "a" Kind.logs)
      (FileContent.record ⟨some rmA, none⟩) from rfl]
  show (decodeFile (if path "b" Kind.logs = path "a" Kind.logs
    then FileContent.record ⟨some rmA, none⟩
    else emptyStore (path "b" Kind.logs))).read_marker = some rmA
  rw [if_pos hpath]
  rfl

/-- C2 amended: path resolution factors exactly through the 64-bit
hash of the canonical name string — two keys resolve to the same file
precisely when the hashes of their names coincide.  Key isolation
therefore holds only for pairs whose name hashes differ; it fails for
any two AggregateLog keys (equal names) and under name or hash
collisions. -/
theorem c2_amended_isolation_iff_hash (s1 s2 : String) (k1 k2 : Kind) :
    path s1 k1 = path s2 k2 ↔
      seahash (utf8Bytes (metadataName s1 k1)) =
        seahash (utf8Bytes (metadataName s2 k2)) := by
  constructor
  · intro h
    unfold path at h
    have hd := congrArg String.data h
    rw [String.data_append, String.data_append] at hd
    exact decChars_inj (List.append_cancel_right hd)
  · intro h
    unfold path
    rw [h]

/-- A store holding marker `rmA` for the key `("s", ServerRoot)`. -/
def c10Store : Store :=
  writeFile emptyStore (path "s" Kind.server)
    (FileContent.record ⟨some rmA, none⟩)

/-- A non-improving candidate aside, `update` rewrites its key's file
with the candidate marker and the loaded `last_triggers_unread`. -/
theorem update_write_of_not_le (st : Store) (server : String) (kind : Kind)
    (c r : ReadMarker) (h : (load st server kind).read_marker = some r)
    (hn : ¬ c.le r) :
    update st server kind c =
      writeFile st (path server kind)
        (FileContent.record
          ⟨some c, (load st server kind).last_triggers_unread⟩) := by
  simp only [update]
  rw [h]
  simp only
  rw [if_neg hn]

/-- C10: `ReadMarker` ordering and equality compare the underlying
instant at full sub-millisecond precision while the canonical text
form truncates to milliseconds: `rmA < rmAsub` (they differ by one
nanosecond) yet both format to the same text, and `update` replaces a
stored `rmA` by `rmAsub`, changing the record without changing the
marker's text form. -/
theorem c10_submillisecond_order_vs_text :
    ReadMarker.lt rmA rmAsub ∧ rmA ≠ rmAsub ∧
    ReadMarker.fmt rmA = ReadMarker.fmt rmAsub ∧
    (load c10Store "s" Kind.server).read_marker = some rmA ∧
    (load (update c10Store "s" Kind.server rmAsub) "s"
        Kind.server).read_marker = some rmAsub := by
  have hload : (load c10Store "s" Kind.server).read_marker = some rmA := by
    show (decodeFile (if path "s" Kind.server = path "s" Kind.server
      then FileContent.record ⟨some rmA, none⟩
      else emptyStore (path "s" Kind.server))).read_marker = some rmA
    rw [if_pos rfl]
    rfl
  refine ⟨by decide, by decide, rfl, hload, ?_⟩
  rw [update_write_of_not_le c10Store "s" Kind.server rmAsub rmA hload
    (by decide)]
  show (decodeFile (if path "s" Kind.server = path "s" Kind.server
    then FileContent.record ⟨some rmAsub,
      (load c10Store "s" Kind.server).last_triggers_unread⟩
    else c10Store (path "s" Kind.server))).read_marker = some rmAsub
  rw [if_pos rfl]
  rfl

theorem parseDigit_digitChar : ∀ d < 10, parseDigit (digitChar d) = some d := by
  decide

theorem daysInMonth_le_31 (y : Int) (m : Nat) : daysInMonth y m ≤ 31 := by
  unfold daysInMonth
  split <;> first | omega | split <;> omega

theorem scanNum_pad : ∀ (w acc n : Nat) (rest : List Char),
    scanNum w acc (pad w n ++ rest) = some (acc * 10 ^ w + n % 10 ^ w, rest) := by
  intro w
  induction w with
  | zero =>
    intro acc n rest
    simp [pad, scanNum, Nat.mod_one]
  | succ w ih =>
    intro acc n rest
    rw [pad, List.cons_append]
    show (match parseDigit (digitChar (n / 10 ^ w % 10)) with
      | some d => scanNum w (acc * 10 + d) (pad w n ++ rest)
      | none => none) = some (acc * 10 ^ (w + 1) + n % 10 ^ (w + 1), rest)
    rw [parseDigit_digitChar _ (Nat.mod_lt _ (by norm_num))]
    simp only
    rw [ih]
    rw [@Nat.mod_pow_succ n 10 w, pow_succ]
    congr 2
    ring

theorem scanNum_pad0 (w n : Nat) (rest : List Char) (h : n < 10 ^ w) :
    scanNum w 0 (pad w n ++ rest) = some (n, rest) := by
  rw [scanNum_pad, Nat.zero_mul, Nat.zero_add, Nat.mod_eq_of_lt h]

theorem isDigit_false_of_parseDigit_none {c : Char}
    (h : parseDigit c = none) : c.isDigit = false := by
  unfold parseDigit at h
  by_cases hp : '0' ≤ c ∧ c ≤ '9'
  · rw [if_pos hp] at h
    exact absurd h (by simp)
  · unfold Char.isDigit
    simp only [Bool.and_eq_false_iff]
    by_cases h1 : '0' ≤ c
    · right
      simp only [decide_eq_false_iff_not]
      intro hc
      exact hp ⟨h1, hc⟩
    · left
      simp only [decide_eq_false_iff_not]
      exact h1

theorem scanFracGo_pad : ∀ (w left acc n : Nat) (c : Char) (rest : List Char),
    parseDigit c = none → w ≤ left →
    scanFracGo left acc (pad w n ++ c :: rest) =
      ((acc * 10 ^ w + n % 10 ^ w) * 10 ^ (left - w), c :: rest) := by
  intro w
  induction w with
  | zero =>
    intro left acc n c rest hc _
    rw [pad, List.nil_append]
    cases left with
    | zero =>
      show (acc, (c :: rest).dropWhile Char.isDigit) = _
      rw [List.dropWhile_cons, if_neg (by
        rw [isDigit_false_of_parseDigit_none hc]
        simp)]
      simp [Nat.mod_one]
    | succ l =>
      show (match parseDigit c with
        | some d => scanFracGo l (acc * 10 + d) rest
        | none => (acc * 10 ^ (l + 1), c :: rest)) = _
      rw [hc]
      simp [Nat.mod_one]
  | succ w ih =>
    intro left acc n c rest hc hw
    cases left with
    | zero => omega
    | succ l =>
      rw [pad, List.cons_append]
      show (match parseDigit (digitChar (n / 10 ^ w % 10)) with
        | some d => scanFracGo l (acc * 10 + d) (pad w n ++ c :: rest)
        | none => (acc * 10 ^ (l + 1),
            digitChar (n / 10 ^ w % 10) :: (pad w n ++ c :: rest))) = _
      rw [parseDigit_digitChar _ (Nat.mod_lt _ (by norm_num))]
      simp only
      rw [ih l (acc * 10 + n / 10 ^ w % 10) n c rest hc (by omega)]
      rw [Nat.succ_sub_succ]
      congr 2
      rw [@Nat.mod_pow_succ n 10 w, pow_succ]
      ring

theorem scanFrac_pad (w n : Nat) (h1 : 1 ≤ w) (h2 : w ≤ 9) (hn : n < 10 ^ w)
    (c : Char) (hc : parseDigit c = none) (rest : List Char) :
    scanFrac (pad w n ++ c :: rest) = some (n * 10 ^ (9 - w), c :: rest) := by
  cases w with
  | zero => omega
  | succ v =>
    rw [pad, List.cons_append]
    show (match parseDigit (digitChar (n / 10 ^ v % 10)) with
      | some d => some (scanFracGo 8 d (pad v n ++ c :: rest))
      | none => none) = some (n * 10 ^ (9 - (v + 1)), c :: rest)
    rw [parseDigit_digitChar _ (Nat.mod_lt _ (by norm_num))]
    simp only
    rw [scanFracGo_pad v 8 (n / 10 ^ v % 10) n c rest hc (by omega)]
    congr 2
    have hmod : n % 10 ^ (v + 1) = n := Nat.mod_eq_of_lt hn
    rw [@Nat.mod_pow_succ n 10 v] at hmod
    have h9 : 9 - (v + 1) = 8 - v := by omega
    rw [h9]
    congr 1
    rw [Nat.mul_comm (10 ^ v) (n / 10 ^ v % 10)] at hmod
    omega

theorem parseRfc3339_render (y mo d h mi s ms : Nat)
    (hy : y < 10000) (hmo : mo < 100) (hd : d < 100) (hh : h < 100)
    (hmi : mi < 100) (hs : s < 100) (hms : ms < 1000) :
    parseRfc3339 (pad 4 y ++ '-' :: (pad 2 mo ++ '-' :: (pad 2 d ++
      'T' :: (pad 2 h ++ ':' :: (pad 2 mi ++ ':' :: (pad 2 s ++
      '.' :: (pad 3 ms ++ ['Z']))))))) =
      some ⟨y, mo, d, h, mi, s, ms * 1000000, 0⟩ := by
  unfold parseRfc3339
  rw [scanNum_pad0 4 y _ (by simpa using hy)]
  simp only [bind, Option.bind, expectChar, eq_self_iff_true, if_true]
  rw [scanNum_pad0 2 mo _ (by simpa using hmo)]
  simp only [bind, Option.bind, expectChar, eq_self_iff_true, if_true]
  rw [scanNum_pad0 2 d _ (by simpa using hd)]
  simp only [bind, Option.bind, expectSep, eq_self_iff_true, true_or, if_true]
  rw [scanNum_pad0 2 h _ (by simpa using hh)]
  simp only [bind, Option.bind, expectChar, eq_self_iff_true, if_true]
  rw [scanNum_pad0 2 mi _ (by simpa using hmi)]
  simp only [bind, Option.bind, expectChar, eq_self_iff_true, if_true]
  rw [scanNum_pad0 2 s _ (by simpa using hs)]
  simp only [bind, Option.bind, expectChar, eq_self_iff_true, if_true]
  rw [scanFrac_pad 3 ms (by omega) (by omega) (by simpa using hms) 'Z'
    (by decide) []]
  simp only [bind, Option.bind, scanOffset, eq_self_iff_true, true_or,
    if_true, List.isEmpty_nil]
  norm_num

theorem from_str_render (t : DateTime) (h1 : 0 ≤ t.year) (h2 : t.year < 10000)
    (h3 : t.nano < 1000000000) :
    ReadMarker.from_str (ReadMarker.fmt ⟨t⟩) = some ⟨t.truncMillis⟩ := by
  obtain ⟨hmo1, hmo2, hd1, hd2, hh, hmi, hs, hn, hy1, hy2⟩ := t.ok
  unfold ReadMarker.from_str ReadMarker.fmt
  rw [show (String.mk (renderChars t)).data = renderChars t from rfl]
  unfold renderChars yearChars
  rw [if_pos ⟨h1, h2⟩]
  rw [show t.second + t.nano / 1000000000 = t.second from by
    rw [Nat.div_eq_of_lt h3, Nat.add_zero]]
  rw [show t.nano % 1000000000 = t.nano from Nat.mod_eq_of_lt h3]
  rw [parseRfc3339_render t.year.toNat t.month t.day t.hour t.minute t.second
    (t.nano / 1000000) ((Int.toNat_lt h1).mpr h2) (by omega)
    (by have := daysInMonth_le_31 t.year t.month; omega) (by omega) (by omega)
    (by omega) (by omega)]
  rw [Option.some_bind]
  unfold toUtc
  simp only
  rw [if_neg (by omega : ¬ t.second = 60)]
  simp only [Int.toNat_of_nonneg h1]
  unfold mkDateTime?
  rw [dif_pos ⟨hmo1, hmo2, hd1, hd2, hh, hmi, hs,
    Nat.lt_of_le_of_lt (Nat.div_mul_le_self _ _) hn, hy1, hy2⟩]
  simp only [if_pos, if_true, Int.natAbs_zero, Nat.zero_lt_succ]
  norm_num
  rfl

/-- The canonical text grammar of the spec (§3): exactly the strings
the `Display` implementation produces — an RFC 3339 date-time with
millisecond fraction and explicit UTC `Z` offset — here the image of
`fmt` over markers with four-digit years and nanoseconds below one
second. -/
def IsCanonicalText (s : String) : Prop :=
  ∃ r : ReadMarker, 0 ≤ r.val.year ∧ r.val.year < 10000 ∧
    r.val.nano < 1000000000 ∧ ReadMarker.fmt r = s

/-- Every formatted marker contains the millisecond dot. -/
theorem fmt_has_dot (r : ReadMarker) : '.' ∈ (ReadMarker.fmt r).data := by
  show '.' ∈ renderChars r.val
  unfold renderChars
  simp [List.mem_append, List.mem_cons]

/-- C4 counterexample: `from_str` accepts
`"2024-01-01T00:00:00Z"` — a string with no millisecond fraction,
hence outside the canonical grammar (every canonical string contains a
dot) — so parsing does not reject every input outside the canonical
grammar. -/
theorem c4_counterexample :
    (ReadMarker.from_str "2024-01-01T00:00:00Z").isSome = true ∧
    ¬ IsCanonicalText "2024-01-01T00:00:00Z" := by
  constructor
  · decide
  · rintro ⟨r, -, -, -, hfmt⟩
    have hdot := fmt_has_dot r
    rw [hfmt] at hdot
    exact absurd hdot (by decide)

/-- C4 amended: parsing accepts every string of the canonical grammar
but also accepts RFC 3339 strings outside it (for example without any
fractional second), while genuinely ill-formed strings are rejected:
the accepted language is chrono's full RFC 3339 grammar, a strict
superset of the canonical one. -/
theorem c4_amended_accepts_rfc3339_superset (s : String)
    (hs : IsCanonicalText s) :
    (ReadMarker.from_str s).isSome = true ∧
    (ReadMarker.from_str "2024-01-01T00:00:00Z").isSome = true ∧
    ¬ IsCanonicalText "2024-01-01T00:00:00Z" ∧
    ReadMarker.from_str "not a timestamp" = none := by
  refine ⟨?_, by decide, ?_, by decide⟩
  · obtain ⟨r, h1, h2, h3, hfmt⟩ := hs
    rw [← hfmt]
    obtain ⟨t⟩ := r
    rw [from_str_render t h1 h2 h3]
    rfl
  · rintro ⟨r, -, -, -, hfmt⟩
    have hdot := fmt_has_dot r
    rw [hfmt] at hdot
    exact absurd hdot (by decide)

/-- Witness for C4 at the canonical text of a concrete marker. -/
theorem c4_witness :
    IsCanonicalText (ReadMarker.fmt rmA) ∧
    ((ReadMarker.from_str (ReadMarker.fmt rmA)).isSome = true ∧
     (ReadMarker.from_str "2024-01-01T00:00:00Z").isSome = true ∧
     ¬ IsCanonicalText "2024-01-01T00:00:00Z" ∧
     ReadMarker.from_str "not a timestamp" = none) :=
  ⟨⟨rmA, by decide, by decide, by decide, rfl⟩,
   c4_amended_accepts_rfc3339_superset (ReadMarker.fmt rmA)
     ⟨rmA, by decide, by decide, by decide, rfl⟩⟩

/-- C8 counterexample: formatting truncates to milliseconds, so for
the marker `rmAsub` — one nanosecond past midnight — parsing the
formatted text does not give back `rmAsub` (marker equality compares
the full sub-millisecond instant). -/
theorem c8_counterexample :
    ReadMarker.from_str (ReadMarker.fmt rmAsub) ≠ some rmAsub := by
  decide

/-- C8 amended: for a marker with a four-digit year and a nanosecond
field below one second (no leap-second representation), parsing the
`Display` output succeeds and yields the marker truncated to whole
milliseconds; in particular the round trip gives back the marker
exactly iff it has no sub-millisecond component. -/
theorem c8_roundtrip_truncates (r : ReadMarker) (h1 : 0 ≤ r.val.year)
    (h2 : r.val.year < 10000) (h3 : r.val.nano < 1000000000) :
    ReadMarker.from_str (ReadMarker.fmt r) = some r.truncMillis ∧
    (r.val.nano % 1000000 = 0 →
      ReadMarker.from_str (ReadMarker.fmt r) = some r) := by
  obtain ⟨t⟩ := r
  refine ⟨from_str_render t h1 h2 h3, fun hz => ?_⟩
  rw [from_str_render t h1 h2 h3]
  have he : t.truncMillis = t := DateTime.ext_fields rfl rfl rfl rfl rfl rfl
    (Nat.div_mul_cancel (Nat.dvd_of_mod_eq_zero hz))
  rw [he]

/-- Witness for C8 at the whole-millisecond marker `rmA`. -/
theorem c8_witness :
    (0 ≤ rmA.val.year ∧ rmA.val.year < 10000 ∧
      rmA.val.nano < 1000000000) ∧
    (ReadMarker.from_str (ReadMarker.fmt rmA) = some rmA.truncMillis ∧
     (rmA.val.nano % 1000000 = 0 →
       ReadMarker.from_str (ReadMarker.fmt rmA) = some rmA)) :=
  ⟨⟨by decide, by decide, by decide⟩,
   c8_roundtrip_truncates rmA (by decide) (by decide) (by decide)⟩

end Halloy
